import Mathlib

/-!
Shallow embedding of the WAV container codec, the multi-channel down-mix,
and the decode retry loop of `gibberlink-tx` (`src/main.rs`), together with
theorems settling the specification claims about them.

Bytes are modelled as `Nat` values below 256; machine integers are `Nat` or
`Int` with explicit reductions modulo `2 ^ 32` or `2 ^ 16` exactly where the
Rust code casts or wraps.  Fallible code returns `Except String`.
-/

namespace Gibberlink

/-- Little-endian bytes of a 32-bit value (`u32::to_le_bytes`); values at or
above `2 ^ 32` are reduced, matching wrapping `u32` arithmetic. -/
def le32 (n : Nat) : List Nat :=
  [n % 256, n / 256 % 256, n / 2 ^ 16 % 256, n / 2 ^ 24 % 256]

/-- Little-endian bytes of a 16-bit value (`u16::to_le_bytes`). -/
def le16 (n : Nat) : List Nat := [n % 256, n / 256 % 256]

/-- Model of `read_le_u16`: `u16::from_le_bytes([buf[0], buf[1]])`.  Call
sites guarantee the indices are in range, so out-of-range reads default
to 0 here. -/
def readLeU16 (buf : List Nat) : Nat := buf.getD 0 0 + 256 * buf.getD 1 0

/-- Model of `read_le_u32`: `u32::from_le_bytes` of the first four bytes. -/
def readLeU32 (buf : List Nat) : Nat :=
  buf.getD 0 0 + 256 * buf.getD 1 0 + 2 ^ 16 * buf.getD 2 0 + 2 ^ 24 * buf.getD 3 0

/-- Constant from `ggwave_consts` in the source. -/
def GGWAVE_SAMPLE_FORMAT_UNDEFINED : Int := 0

/-- Constant from `ggwave_consts` in the source. -/
def GGWAVE_SAMPLE_FORMAT_U8 : Int := 1

/-- Constant from `ggwave_consts` in the source. -/
def GGWAVE_SAMPLE_FORMAT_I8 : Int := 2

/-- Constant from `ggwave_consts` in the source. -/
def GGWAVE_SAMPLE_FORMAT_U16 : Int := 3

/-- Constant from `ggwave_consts` in the source. -/
def GGWAVE_SAMPLE_FORMAT_I16 : Int := 4

/-- Constant from `ggwave_consts` in the source. -/
def GGWAVE_SAMPLE_FORMAT_F32 : Int := 5

/-- The `bits_per_sample` match at the top of `write_wav`. -/
def bitsPerSampleOf (sample_format : Int) : Nat :=
  if sample_format = GGWAVE_SAMPLE_FORMAT_I16 then 16
  else if sample_format = GGWAVE_SAMPLE_FORMAT_U8 then 8
  else if sample_format = GGWAVE_SAMPLE_FORMAT_F32 then 32
  else if sample_format = GGWAVE_SAMPLE_FORMAT_I8 then 8
  else if sample_format = GGWAVE_SAMPLE_FORMAT_U16 then 16
  else 16

/-- Model of `write_wav`: the exact byte stream the writer emits for a given
sample rate (a `u32`), ggwave sample format and payload.  ASCII tags:
`"RIFF" = [82,73,70,70]`, `"WAVE" = [87,65,86,69]`,
`"fmt " = [102,109,116,32]`, `"data" = [100,97,116,97]`. -/
def write_wav (sample_rate : Nat) (sample_format : Int) (data : List Nat) : List Nat :=
  let num_channels : Nat := 1
  let bits_per_sample : Nat := bitsPerSampleOf sample_format
  let byte_rate : Nat := (sample_rate * num_channels * (bits_per_sample / 8)) % 2 ^ 32
  let block_align : Nat := (num_channels * (bits_per_sample / 8)) % 2 ^ 16
  let data_len : Nat := data.length % 2 ^ 32
  let riff_chunk_size : Nat := (36 + data_len) % 2 ^ 32
  [82, 73, 70, 70] ++ le32 riff_chunk_size ++ [87, 65, 86, 69] ++
    [102, 109, 116, 32] ++ le32 16 ++ le16 1 ++ le16 num_channels ++
    le32 (sample_rate % 2 ^ 32) ++ le32 byte_rate ++ le16 block_align ++
    le16 bits_per_sample ++
    [100, 97, 116, 97] ++ le32 data_len ++ data

/-- Model of the `WavData` struct returned by `read_wav`. -/
structure WavData where
  sample_rate : Nat
  channels : Nat
  bits_per_sample : Nat
  format_tag : Nat
  data : List Nat
  deriving DecidableEq, Repr

/-- The mutable state of the chunk-scanning loop in `read_wav` (the local
variables `fmt_chunk_found` .. `data`), with the source's initial values. -/
structure ScanSt where
  fmt_chunk_found : Bool
  data_chunk_found : Bool
  format_tag : Nat
  channels : Nat
  sample_rate : Nat
  bits_per_sample : Nat
  data : List Nat
  deriving DecidableEq, Repr

/-- Initial scan state (`format_tag = 1`, `channels = 1`,
`sample_rate = 44100`, `bits_per_sample = 16`, empty data). -/
def initScanSt : ScanSt :=
  { fmt_chunk_found := false, data_chunk_found := false, format_tag := 1,
    channels := 1, sample_rate := 44100, bits_per_sample := 16, data := [] }

/-- Processing of one chunk body inside the loop of `read_wav`: the
`if id == b"fmt "` / `else if id == b"data"` branches.  `len` is the
declared chunk length (equal to `chunk.length` at the call site). -/
def applyChunk (st : ScanSt) (id : List Nat) (len : Nat) (chunk : List Nat) :
    Except String ScanSt :=
  if id = [102, 109, 116, 32] then
    if len < 16 then .error "fmt chunk too small"
    else
      .ok { st with
        format_tag := readLeU16 chunk,
        channels := readLeU16 (chunk.drop 2),
        sample_rate := readLeU32 (chunk.drop 4),
        bits_per_sample := readLeU16 (chunk.drop 14),
        fmt_chunk_found := true }
  else if id = [100, 97, 116, 97] then
    .ok { st with data := chunk, data_chunk_found := true }
  else .ok st

/-- The check after the loop of `read_wav`: with both chunks seen the parsed
`WavData` is returned, otherwise the missing-chunk error.  The loop's
`break` on both flags reaches exactly this same check. -/
def finishScan (st : ScanSt) : Except String WavData :=
  if st.fmt_chunk_found && st.data_chunk_found then
    .ok ⟨st.sample_rate, st.channels, st.bits_per_sample, st.format_tag, st.data⟩
  else .error "Missing fmt or data chunk"

/-- Fuel-indexed model of the chunk loop in `read_wav`.  One iteration reads
an 8-byte header (end of stream ends the scan), the declared number of
payload bytes (failing with the read error if the stream is short), one
ignored pad byte when the declared length is odd, and then processes the
chunk; the loop stops as soon as both required chunks have been seen.
Each iteration consumes at least 8 bytes, so fuel equal to the byte count
never runs out; at fuel 0 the stream must be empty and ending the scan is
exactly the source's end-of-stream break. -/
def scanChunks (modelFuel : Nat) (bytes : List Nat) (st : ScanSt) :
    Except String WavData :=
  match modelFuel with
  | 0 => finishScan st
  | fuel + 1 =>
    if bytes.length < 8 then finishScan st
    else
      let len := readLeU32 (bytes.drop 4)
      let body := bytes.drop 8
      if body.length < len then .error "read chunk"
      else
        let chunk := body.take len
        let rest := if len % 2 = 1 then (body.drop len).drop 1 else body.drop len
        match applyChunk st (bytes.take 4) len chunk with
        | .error e => .error e
        | .ok st2 =>
          if st2.fmt_chunk_found && st2.data_chunk_found then finishScan st2
          else scanChunks fuel rest st2

/-- Model of `read_wav` on the file's byte stream.  The strings
`"read header"` and `"read chunk"` abbreviate the source's io-error
messages; the other error strings are the source's literals. -/
def read_wav (bytes : List Nat) : Except String WavData :=
  if bytes.length < 12 then .error "read header"
  else if bytes.take 4 ≠ [82, 73, 70, 70] ∨ (bytes.drop 8).take 4 ≠ [87, 65, 86, 69] then
    .error "Not a RIFF/WAVE file"
  else scanChunks bytes.length (bytes.drop 12) initScanSt

/-- Signed 16-bit value of two little-endian bytes (`i16::from_le_bytes`). -/
def i16FromLe (b0 b1 : Nat) : Int :=
  let v : Int := b0 + 256 * b1
  if v < 2 ^ 15 then v else v - 2 ^ 16

/-- Little-endian two's-complement bytes of an `i16` (`i16::to_le_bytes`). -/
def i16ToLe (v : Int) : List Nat :=
  let u := (v % 2 ^ 16).toNat
  [u % 256, u / 256]

/-- Rust `clamp`: `lo` below `lo`, `hi` above `hi`, identity in between. -/
def intClamp (x lo hi : Int) : Int := if x < lo then lo else if x > hi then hi else x

/-- Abstract interface to 32-bit IEEE float operations used by the float
branch of `downmix_to_mono` (`f32::from_le_bytes`, `0.0`, `+`, division by
the channel count, `f32::to_le_bytes`).  The embedding is parameterized
over the interpretation, so every theorem below holds in particular for
real IEEE semantics; no theorem depends on float arithmetic facts. -/
structure F32Model (α : Type) where
  fromLe : Nat → Nat → Nat → Nat → α
  zero : α
  add : α → α → α
  divNat : α → Nat → α
  toLe : α → List Nat
  toLe_length : ∀ x, (toLe x).length = 4

/-- Trivial float interpretation, used only to evaluate witnesses. -/
def trivF32 : F32Model Unit :=
  { fromLe := fun _ _ _ _ => (), zero := (), add := fun _ _ => (),
    divNat := fun _ _ => (), toLe := fun _ => [0, 0, 0, 0],
    toLe_length := fun _ => rfl }

/-- Model of `downmix_to_mono`.  The result pairs the ggwave sample format
with the mono sample bytes.  Note: with `channels = 0` the Rust code would
divide by zero (a panic); here the quotient is 0 — no claim concerns a
zero-channel buffer. -/
def downmix_to_mono {α : Type} (fm : F32Model α) (w : WavData) :
    Except String (Int × List Nat) :=
  if w.channels = 1 then
    if w.format_tag = 1 ∧ w.bits_per_sample = 8 then
      .ok (GGWAVE_SAMPLE_FORMAT_U8, w.data)
    else if w.format_tag = 1 ∧ w.bits_per_sample = 16 then
      .ok (GGWAVE_SAMPLE_FORMAT_I16, w.data)
    else if w.format_tag = 3 ∧ w.bits_per_sample = 32 then
      .ok (GGWAVE_SAMPLE_FORMAT_F32, w.data)
    else
      .error ("Unsupported WAV format tag " ++ toString w.format_tag ++
        " bits " ++ toString w.bits_per_sample)
  else if w.format_tag = 1 ∧ w.bits_per_sample = 16 then
    let frame_count := w.data.length / (2 * w.channels)
    .ok (GGWAVE_SAMPLE_FORMAT_I16, (List.range frame_count).flatMap (fun i =>
      let acc : Int := (List.range w.channels).foldl
        (fun a ch => a + i16FromLe (w.data.getD ((i * w.channels + ch) * 2) 0)
          (w.data.getD ((i * w.channels + ch) * 2 + 1) 0)) 0
      i16ToLe (intClamp (Int.tdiv acc w.channels) (-32768) 32767)))
  else if w.format_tag = 1 ∧ w.bits_per_sample = 8 then
    let frame_count := w.data.length / (1 * w.channels)
    .ok (GGWAVE_SAMPLE_FORMAT_U8, (List.range frame_count).map (fun i =>
      let acc : Int := (List.range w.channels).foldl
        (fun a ch => a + (w.data.getD (i * w.channels + ch) 0 : Int)) 0
      (intClamp (Int.tdiv acc w.channels) 0 255).toNat))
  else if w.format_tag = 3 ∧ w.bits_per_sample = 32 then
    let frame_count := w.data.length / (4 * w.channels)
    .ok (GGWAVE_SAMPLE_FORMAT_F32, (List.range frame_count).flatMap (fun i =>
      let acc : α := (List.range w.channels).foldl
        (fun a ch =>
          let idx := (i * w.channels + ch) * 4
          fm.add a (fm.fromLe (w.data.getD idx 0) (w.data.getD (idx + 1) 0)
            (w.data.getD (idx + 2) 0) (w.data.getD (idx + 3) 0))) fm.zero
      fm.toLe (fm.divNat acc w.channels)))
  else
    .error ("Unsupported multi-channel WAV format tag " ++ toString w.format_tag ++
      " bits " ++ toString w.bits_per_sample)

/-- Fuel-indexed model of the capacity-doubling decode loop in
`decode_wav_with_ggwave`.  `modem cap` is the `ggwave_ndecode` result when
called with an output buffer of `cap` bytes; the loop's value is the length
of the returned payload (`out.truncate(n as usize)` on a buffer of `cap`
bytes keeps `min n cap` bytes).  The capacity after `k` doublings is
`256 * 2 ^ k`; the fuel-0 branch is unreachable from `decode_ggwave_len`
because the `65536` ceiling stops the doubling at `k = 8`. -/
def decodeLoopAux (modem : Nat → Int) : Nat → Nat → Except String Nat
  | _, 0 => .error "Decoded payload too large"
  | k, fuel + 1 =>
    let cap := 256 * 2 ^ k
    let n := modem cap
    if n = -2 then
      if 256 * 2 ^ (k + 1) > 65536 then .error "Decoded payload too large"
      else decodeLoopAux modem (k + 1) fuel
    else if n ≤ 0 then .error "No payload decoded"
    else .ok (min n.toNat cap)

/-- The decode loop of `decode_wav_with_ggwave`, starting at capacity 256
(zero doublings). -/
def decode_ggwave_len (modem : Nat → Int) : Except String Nat :=
  decodeLoopAux modem 0 9


/-- Decidable equality for `Except`, used to evaluate witnesses. -/
instance {ε α : Type} [DecidableEq ε] [DecidableEq α] : DecidableEq (Except ε α) :=
  fun a b =>
  match a, b with
  | .ok x, .ok y => if h : x = y then isTrue (by rw [h]) else isFalse (by simp [h])
  | .error e, .error f => if h : e = f then isTrue (by rw [h]) else isFalse (by simp [h])
  | .ok _, .error _ => isFalse (by simp)
  | .error _, .ok _ => isFalse (by simp)


theorem readLeU32_le32_append (n : Nat) (tl : List Nat) :
    readLeU32 (le32 n ++ tl) = n % 2 ^ 32 := by
  simp [readLeU32, le32]
  omega

theorem readLeU16_le16_append (n : Nat) (tl : List Nat) :
    readLeU16 (le16 n ++ tl) = n % 2 ^ 16 := by
  simp [readLeU16, le16]
  omega

theorem scanChunks_step (fuel a b c d : Nat) (p rest : List Nat) (st : ScanSt)
    (hp : p.length < 2 ^ 32) :
    scanChunks (fuel + 1) (a :: b :: c :: d :: (le32 p.length ++ (p ++ rest))) st =
      match applyChunk st [a, b, c, d] p.length p with
      | .error e => .error e
      | .ok st2 =>
        if st2.fmt_chunk_found && st2.data_chunk_found then finishScan st2
        else scanChunks fuel (if p.length % 2 = 1 then rest.drop 1 else rest) st2 := by
  have hlen : (a :: b :: c :: d :: (le32 p.length ++ (p ++ rest))).length = 8 + p.length + rest.length := by
    simp [le32]; omega
  have hdrop4 : (a :: b :: c :: d :: (le32 p.length ++ (p ++ rest))).drop 4 = le32 p.length ++ (p ++ rest) := rfl
  have hdrop8 : (a :: b :: c :: d :: (le32 p.length ++ (p ++ rest))).drop 8 = p ++ rest := by
    simp [le32]
  have htake4 : (a :: b :: c :: d :: (le32 p.length ++ (p ++ rest))).take 4 = [a, b, c, d] := rfl
  rw [scanChunks]
  simp only [hlen, hdrop4, hdrop8, htake4, readLeU32_le32_append, Nat.mod_eq_of_lt hp]
  rw [if_neg (by omega)]
  rw [if_neg (by simp only [List.length_append]; omega)]
  rw [List.take_left, List.drop_left]


theorem scanChunks_fuelInv : ∀ (f1 f2 : Nat) (bytes : List Nat) (st : ScanSt),
    bytes.length ≤ f1 → bytes.length ≤ f2 →
    scanChunks f1 bytes st = scanChunks f2 bytes st := by
  intro f1
  induction f1 with
  | zero =>
    intro f2 bytes st h1 h2
    have hb : bytes = [] := List.eq_nil_of_length_eq_zero (by omega)
    subst hb
    cases f2 <;> rfl
  | succ f1 ih =>
    intro f2 bytes st h1 h2
    cases f2 with
    | zero =>
      have hb : bytes = [] := List.eq_nil_of_length_eq_zero (by omega)
      subst hb
      rfl
    | succ g =>
      by_cases hb : bytes.length < 8
      · rw [scanChunks, scanChunks, if_pos hb, if_pos hb]
      · rw [scanChunks, scanChunks, if_neg hb, if_neg hb]
        dsimp only
        by_cases hbody : (bytes.drop 8).length < readLeU32 (bytes.drop 4)
        · rw [if_pos hbody, if_pos hbody]
        · rw [if_neg hbody, if_neg hbody]
          cases happ : applyChunk st (bytes.take 4) (readLeU32 (bytes.drop 4))
              ((bytes.drop 8).take (readLeU32 (bytes.drop 4))) with
          | error e => simp only [happ]
          | ok st2 =>
            simp only [happ]
            by_cases hf : (st2.fmt_chunk_found && st2.data_chunk_found) = true
            · rw [if_pos hf, if_pos hf]
            · rw [if_neg hf, if_neg hf]
              apply ih
              · have := List.length_drop 8 bytes
                by_cases hodd : readLeU32 (bytes.drop 4) % 2 = 1 <;>
                  simp [hodd, List.length_drop] <;> omega
              · have := List.length_drop 8 bytes
                by_cases hodd : readLeU32 (bytes.drop 4) % 2 = 1 <;>
                  simp [hodd, List.length_drop] <;> omega


theorem applyChunk_fmtPayload (st : ScanSt) (sr br ba bits : Nat)
    (hsr : sr < 2 ^ 32) (hbits : bits < 2 ^ 16) :
    applyChunk st [102, 109, 116, 32] 16
      (le16 1 ++ (le16 1 ++ (le32 sr ++ (le32 br ++ (le16 ba ++ le16 bits))))) =
    .ok { st with format_tag := 1, channels := 1, sample_rate := sr,
                  bits_per_sample := bits, fmt_chunk_found := true } := by
  simp [applyChunk, le16, le32, readLeU16, readLeU32]
  omega

theorem applyChunk_dataChunk (st : ScanSt) (len : Nat) (p : List Nat) :
    applyChunk st [100, 97, 116, 97] len p =
    .ok { st with data := p, data_chunk_found := true } := rfl


theorem bitsPerSampleOf_lt (fmt : Int) : bitsPerSampleOf fmt < 2 ^ 16 := by
  unfold bitsPerSampleOf
  split_ifs <;> norm_num

theorem write_wav_length (sr : Nat) (fmt : Int) (data : List Nat) :
    (write_wav sr fmt data).length = 44 + data.length := by
  simp [write_wav, le16, le32]
  omega

theorem read_write_wav (sr : Nat) (fmt : Int) (data : List Nat)
    (hsr : sr < 2 ^ 32) (hL : data.length < 2 ^ 32) :
    read_wav (write_wav sr fmt data) =
      .ok ⟨sr, 1, bitsPerSampleOf fmt, 1, data⟩ := by
  have hbits : bitsPerSampleOf fmt < 2 ^ 16 := bitsPerSampleOf_lt fmt
  set bits := bitsPerSampleOf fmt with hbitsdef
  set br := (sr * (bits / 8)) % 2 ^ 32 with hbrdef
  set ba := (bits / 8) % 2 ^ 16 with hbadef
  set fmtP := le16 1 ++ (le16 1 ++ (le32 sr ++ (le32 br ++ (le16 ba ++ le16 bits))))
    with hfmtP
  have hfmtPlen : fmtP.length = 16 := by simp [hfmtP, le16, le32]
  have hshape : write_wav sr fmt data =
      82 :: 73 :: 70 :: 70 :: (le32 ((36 + data.length % 2 ^ 32) % 2 ^ 32) ++
        (87 :: 65 :: 86 :: 69 :: (102 :: 109 :: 116 :: 32 :: (le32 16 ++
          (fmtP ++ (100 :: 97 :: 116 :: 97 :: (le32 data.length ++
            (data ++ [])))))))) := by
    have hsrm : sr % 4294967296 = sr := Nat.mod_eq_of_lt (by omega)
    have hLm : data.length % 4294967296 = data.length := Nat.mod_eq_of_lt (by omega)
    simp [write_wav, hfmtP, List.append_assoc]
    simp [hbrdef, hbadef, hbitsdef, hsrm, hLm]
  have h1 : ¬ (write_wav sr fmt data).length < 12 := by
    rw [write_wav_length]; omega
  have h2 : (write_wav sr fmt data).take 4 = [82, 73, 70, 70] := by
    rw [hshape]; rfl
  have h3 : ((write_wav sr fmt data).drop 8).take 4 = [87, 65, 86, 69] := by
    rw [hshape]; simp [le32]
  have h4 : (write_wav sr fmt data).drop 12 =
      102 :: 109 :: 116 :: 32 :: (le32 16 ++
        (fmtP ++ (100 :: 97 :: 116 :: 97 :: (le32 data.length ++ (data ++ []))))) := by
    rw [hshape]; simp [le32]
  rw [read_wav, if_neg h1, if_neg (by simp [h2, h3]), write_wav_length, h4]
  rw [(by omega : 44 + data.length = 43 + data.length + 1)]
  rw [(by rw [hfmtPlen] : le32 16 = le32 fmtP.length)]
  rw [scanChunks_step _ _ _ _ _ fmtP _ _ (by rw [hfmtPlen]; norm_num)]
  rw [hfmtPlen, hfmtP, applyChunk_fmtPayload initScanSt sr br ba bits hsr hbits]
  simp only [initScanSt]
  norm_num
  rw [(by omega : 43 + data.length = 42 + data.length + 1)]
  rw [(by rw [List.append_nil] :
    (le32 data.length ++ data : List Nat) = le32 data.length ++ (data ++ []))]
  rw [scanChunks_step _ _ _ _ _ data _ _ hL]
  rw [applyChunk_dataChunk]
  simp [finishScan]


/-- A scan over an exhausted stream just runs the post-loop check. -/
theorem scanChunks_nil (fuel : Nat) (st : ScanSt) :
    scanChunks fuel [] st = finishScan st := by
  cases fuel <;> rfl

/-- C6: for every input stream of at least 12 bytes whose bytes 0-3 are not
the ASCII literal "RIFF" or whose bytes 8-11 are not "WAVE", the WAV Reader
fails with the NotARiffFile error and returns no buffer. -/
theorem claim6_not_riff (bytes : List Nat) (h12 : 12 ≤ bytes.length)
    (hbad : bytes.take 4 ≠ [82, 73, 70, 70] ∨
      (bytes.drop 8).take 4 ≠ [87, 65, 86, 69]) :
    read_wav bytes = .error "Not a RIFF/WAVE file" := by
  rw [read_wav, if_neg (by omega), if_pos hbad]

/-- C6 witness: a 12-byte stream beginning with "RIFG" fails as claimed. -/
theorem claim6_not_riff_witness :
    12 ≤ ([82, 73, 70, 71, 0, 0, 0, 0, 87, 65, 86, 69] : List Nat).length ∧
    read_wav [82, 73, 70, 71, 0, 0, 0, 0, 87, 65, 86, 69] =
      .error "Not a RIFF/WAVE file" :=
  ⟨by decide, claim6_not_riff _ (by decide) (by decide)⟩

/-- C5: one iteration of the chunk scan on a chunk with four id bytes, a
little-endian length field matching the payload, and the payload itself,
consumes exactly one extra pad byte from the following stream when the
declared length is odd, and none when it is even, before continuing. -/
theorem claim5_chunk_padding (fuel a b c d : Nat) (p rest : List Nat)
    (st : ScanSt) (hp : p.length < 2 ^ 32) :
    (p.length % 2 = 1 →
      scanChunks (fuel + 1) (a :: b :: c :: d :: (le32 p.length ++ (p ++ rest))) st =
        match applyChunk st [a, b, c, d] p.length p with
        | .error e => .error e
        | .ok st2 =>
          if st2.fmt_chunk_found && st2.data_chunk_found then finishScan st2
          else scanChunks fuel (rest.drop 1) st2) ∧
    (p.length % 2 = 0 →
      scanChunks (fuel + 1) (a :: b :: c :: d :: (le32 p.length ++ (p ++ rest))) st =
        match applyChunk st [a, b, c, d] p.length p with
        | .error e => .error e
        | .ok st2 =>
          if st2.fmt_chunk_found && st2.data_chunk_found then finishScan st2
          else scanChunks fuel rest st2) := by
  constructor
  · intro hodd
    rw [scanChunks_step fuel a b c d p rest st hp]
    simp [hodd]
  · intro heven
    rw [scanChunks_step fuel a b c d p rest st hp]
    have : ¬ p.length % 2 = 1 := by omega
    simp [this]

/-- C5 witness: a one-byte (odd) chunk followed by two stream bytes has the
first of those bytes skipped as padding. -/
theorem claim5_chunk_padding_witness :
    ([9] : List Nat).length % 2 = 1 ∧
    scanChunks (0 + 1) (1 :: 2 :: 3 :: 4 :: (le32 ([9] : List Nat).length ++
        ([9] ++ [5, 6]))) initScanSt =
      match applyChunk initScanSt [1, 2, 3, 4] ([9] : List Nat).length [9] with
      | .error e => .error e
      | .ok st2 =>
        if st2.fmt_chunk_found && st2.data_chunk_found then finishScan st2
        else scanChunks 0 ([5, 6].drop 1) st2 :=
  ⟨by decide,
   (claim5_chunk_padding 0 1 2 3 4 [9] [5, 6] initScanSt (by decide)).1 (by decide)⟩

/-- C3 counterexample: a mono buffer whose encoding is unsupported (format
tag 2, 16 bits) makes channel reduction return an error, so reduction does
not succeed on every channel_count = 1 buffer. -/
theorem claim3_counterexample :
    (⟨44100, 1, 16, 2, [7]⟩ : WavData).channels = 1 ∧
    downmix_to_mono trivF32 ⟨44100, 1, 16, 2, [7]⟩ =
      .error "Unsupported WAV format tag 2 bits 16" :=
  ⟨rfl, by decide⟩

/-- C3 amended: for every mono AudioBuffer of a supported encoding, channel
reduction succeeds and returns the input bytes unchanged. -/
theorem claim3_mono_identity {α : Type} (fm : F32Model α) (w : WavData)
    (hch : w.channels = 1)
    (hsupp : (w.format_tag = 1 ∧ w.bits_per_sample = 8) ∨
      (w.format_tag = 1 ∧ w.bits_per_sample = 16) ∨
      (w.format_tag = 3 ∧ w.bits_per_sample = 32)) :
    downmix_to_mono fm w =
      .ok (if w.bits_per_sample = 8 then GGWAVE_SAMPLE_FORMAT_U8
        else if w.bits_per_sample = 16 then GGWAVE_SAMPLE_FORMAT_I16
        else GGWAVE_SAMPLE_FORMAT_F32, w.data) := by
  rcases hsupp with ⟨h1, h2⟩ | ⟨h1, h2⟩ | ⟨h1, h2⟩ <;>
    simp [downmix_to_mono, hch, h1, h2]

/-- C3 witness: a mono 16-bit PCM buffer passes through unchanged. -/
theorem claim3_mono_identity_witness :
    downmix_to_mono trivF32 ⟨44100, 1, 16, 1, [7, 8]⟩ =
      .ok (GGWAVE_SAMPLE_FORMAT_I16, [7, 8]) := by
  have h := claim3_mono_identity trivF32 ⟨44100, 1, 16, 1, [7, 8]⟩ rfl
    (Or.inr (Or.inl ⟨rfl, rfl⟩))
  simpa using h

/-- The doubling guard in the decode loop: the doubled capacity exceeds the
64KB ceiling exactly when eight doublings have already happened. -/
theorem decodeCap_gt_iff (k : Nat) : 256 * 2 ^ (k + 1) > 65536 ↔ 8 ≤ k := by
  rw [(by norm_num : (256 : Nat) = 2 ^ 8), ← pow_add,
    (by norm_num : (65536 : Nat) = 2 ^ 16)]
  rw [gt_iff_lt, Nat.pow_lt_pow_iff_right (by norm_num)]
  omega

/-- If the modem keeps answering "buffer too small" for the rest of the
doubling schedule, the loop ends with the too-large error. -/
theorem decodeLoopAux_all_neg2 (modem : Nat → Int) :
    ∀ (fuel k : Nat), k ≤ 8 → (∀ j, k ≤ j → j ≤ 8 → modem (256 * 2 ^ j) = -2) →
    decodeLoopAux modem k fuel = .error "Decoded payload too large" := by
  intro fuel
  induction fuel with
  | zero => intro k _ _; rfl
  | succ fuel ih =>
    intro k hk hmod
    rw [decodeLoopAux]
    rw [if_pos (hmod k le_rfl hk)]
    by_cases hk8 : 8 ≤ k
    · rw [if_pos ((decodeCap_gt_iff k).2 hk8)]
    · rw [if_neg (by rw [decodeCap_gt_iff]; omega)]
      exact ih (k + 1) (by omega) (fun j hj1 hj2 => hmod j (by omega) hj2)

/-- Skipping an initial run of "buffer too small" answers advances the loop
to the first capacity with a different answer. -/
theorem decodeLoopAux_skip (modem : Nat → Int) :
    ∀ k, k ≤ 8 → (∀ j, j < k → modem (256 * 2 ^ j) = -2) →
    decodeLoopAux modem 0 9 = decodeLoopAux modem k (9 - k) := by
  intro k
  induction k with
  | zero => intro _ _; rfl
  | succ k ih =>
    intro hk hmod
    rw [ih (by omega) (fun j hj => hmod j (by omega))]
    rw [(by omega : 9 - k = (9 - (k + 1)) + 1), decodeLoopAux]
    rw [if_pos (hmod k (by omega))]
    rw [if_neg (by rw [decodeCap_gt_iff]; omega)]

/-- C9 amended: full characterization of the decode retry loop.  If the
modem answers -2 ("buffer too small") at every capacity of the doubling
schedule 256, 512, ..., 65536, the loop fails with the too-large error;
otherwise, at the first capacity with a different answer, a non-positive
answer fails with the no-payload error and a positive answer `n` returns
`min n cap` bytes (exactly `n` whenever `n` fits the supplied buffer).
The loop is a total function, so it always terminates. -/
theorem claim9_decode_loop (modem : Nat → Int) :
    ((∀ j, j ≤ 8 → modem (256 * 2 ^ j) = -2) →
      decode_ggwave_len modem = .error "Decoded payload too large") ∧
    (∀ k, k ≤ 8 → (∀ j, j < k → modem (256 * 2 ^ j) = -2) →
      modem (256 * 2 ^ k) ≠ -2 →
      ((modem (256 * 2 ^ k) ≤ 0 →
        decode_ggwave_len modem = .error "No payload decoded") ∧
      (0 < modem (256 * 2 ^ k) →
        decode_ggwave_len modem =
          .ok (min (modem (256 * 2 ^ k)).toNat (256 * 2 ^ k))))) := by
  constructor
  · intro hall
    exact decodeLoopAux_all_neg2 modem 9 0 (by omega) (fun j _ hj => hall j hj)
  · intro k hk hpre hne
    rw [decode_ggwave_len, decodeLoopAux_skip modem k hk hpre]
    rw [(by omega : 9 - k = (9 - (k + 1)) + 1), decodeLoopAux]
    rw [if_neg hne]
    constructor
    · intro hle
      rw [if_pos hle]
    · intro hpos
      rw [if_neg (by omega)]

/-- C9 counterexample: a modem answering 300 at the initial 256-byte buffer
makes the loop return 256 bytes, not 300, so a positive result does not
always return exactly that many bytes. -/
theorem claim9_counterexample :
    decode_ggwave_len (fun _ => 300) = .ok 256 ∧ (256 : Nat) ≠ 300 :=
  ⟨by decide, by decide⟩

/-- C9 witness: a modem immediately answering 5 makes the loop return
5 bytes. -/
theorem claim9_decode_loop_witness :
    decode_ggwave_len (fun _ => 5) = .ok (min (Int.toNat 5) (256 * 2 ^ 0)) :=
  ((claim9_decode_loop (fun _ => 5)).2 0 (by decide)
    (fun j hj => absurd hj (Nat.not_lt_zero j)) (by decide)).2 (by decide)

/-- Byte-level shape of the writer output, with every wrapping reduction
kept explicit (no side conditions). -/
theorem write_wav_shape (sr : Nat) (fmt : Int) (data : List Nat) :
    write_wav sr fmt data =
      82 :: 73 :: 70 :: 70 :: (le32 ((36 + data.length % 2 ^ 32) % 2 ^ 32) ++
        (87 :: 65 :: 86 :: 69 :: (102 :: 109 :: 116 :: 32 :: (le32 16 ++
          ((le16 1 ++ (le16 1 ++ (le32 (sr % 2 ^ 32) ++
            (le32 (sr * (bitsPerSampleOf fmt / 8) % 2 ^ 32) ++
              (le16 (bitsPerSampleOf fmt / 8 % 2 ^ 16) ++
                le16 (bitsPerSampleOf fmt)))))) ++
            (100 :: 97 :: 116 :: 97 :: (le32 (data.length % 2 ^ 32) ++
              (data ++ [])))))))) := by
  simp [write_wav, List.append_assoc]

/-- C10: the writer stamps PCM format code 1 for every sample format; a file
written with the 32-bit float format reads back as format_tag 1 with
bits_per_sample 32; and channel reduction of such a mono buffer always
fails with the unsupported-sample-format error. -/
theorem claim10_float_pipeline :
    (∀ (sr : Nat) (fmt : Int) (data : List Nat),
      ((write_wav sr fmt data).drop 20).take 2 = [1, 0]) ∧
    (∀ (sr : Nat) (data : List Nat), sr < 2 ^ 32 → data.length < 2 ^ 32 →
      read_wav (write_wav sr GGWAVE_SAMPLE_FORMAT_F32 data) =
        .ok ⟨sr, 1, 32, 1, data⟩) ∧
    (∀ {α : Type} (fm : F32Model α) (w : WavData), w.channels = 1 →
      w.format_tag = 1 → w.bits_per_sample = 32 →
      downmix_to_mono fm w = .error "Unsupported WAV format tag 1 bits 32") := by
  refine ⟨?_, ?_, ?_⟩
  · intro sr fmt data
    rw [write_wav_shape]
    simp [le16, le32]
  · intro sr data hsr hL
    exact read_write_wav sr GGWAVE_SAMPLE_FORMAT_F32 data hsr hL
  · intro α fm w hch htag hbits
    simp [downmix_to_mono, hch, htag, hbits]
    rfl

/-- C10 witness: a 4-byte float file round-trips to a PCM-tagged 32-bit
buffer, the PCM code bytes are [1, 0], and reduction of the read-back
buffer fails. -/
theorem claim10_float_pipeline_witness :
    read_wav (write_wav 48000 GGWAVE_SAMPLE_FORMAT_F32 [1, 2, 3, 4]) =
      .ok ⟨48000, 1, 32, 1, [1, 2, 3, 4]⟩ ∧
    ((write_wav 48000 GGWAVE_SAMPLE_FORMAT_I16 [7]).drop 20).take 2 = [1, 0] ∧
    downmix_to_mono trivF32 ⟨48000, 1, 32, 1, [1, 2, 3, 4]⟩ =
      .error "Unsupported WAV format tag 1 bits 32" :=
  ⟨claim10_float_pipeline.2.1 48000 [1, 2, 3, 4] (by decide) (by decide),
   claim10_float_pipeline.1 48000 GGWAVE_SAMPLE_FORMAT_I16 [7],
   claim10_float_pipeline.2.2 trivF32 ⟨48000, 1, 32, 1, [1, 2, 3, 4]⟩ rfl rfl rfl⟩

/-- C4 amended: for payloads that fit the 32-bit RIFF size field (length
below `2 ^ 32 - 36`), the writer emits exactly a fixed 44-byte little-endian
header followed by the payload, the RIFF size field decodes to 36 plus the
data length, and the "data" chunk length field decodes to the data length. -/
theorem claim4_header_layout (sr : Nat) (fmt : Int) (data : List Nat)
    (hsr : sr < 2 ^ 32) (hL : 36 + data.length < 2 ^ 32) :
    (write_wav sr fmt data).length = 44 + data.length ∧
    (write_wav sr fmt data).take 4 = [82, 73, 70, 70] ∧
    readLeU32 ((write_wav sr fmt data).drop 4) = 36 + data.length ∧
    ((write_wav sr fmt data).drop 8).take 4 = [87, 65, 86, 69] ∧
    ((write_wav sr fmt data).drop 36).take 4 = [100, 97, 116, 97] ∧
    readLeU32 ((write_wav sr fmt data).drop 40) = data.length ∧
    (write_wav sr fmt data).drop 44 = data ∧
    (write_wav sr fmt data).take 44 =
      [82, 73, 70, 70] ++ le32 (36 + data.length) ++ [87, 65, 86, 69] ++
        [102, 109, 116, 32] ++ le32 16 ++ le16 1 ++ le16 1 ++ le32 sr ++
        le32 (sr * (bitsPerSampleOf fmt / 8) % 2 ^ 32) ++
        le16 (bitsPerSampleOf fmt / 8) ++ le16 (bitsPerSampleOf fmt) ++
        [100, 97, 116, 97] ++ le32 data.length := by
  have hLm : data.length % 2 ^ 32 = data.length := Nat.mod_eq_of_lt (by omega)
  have hRm : (36 + data.length) % 2 ^ 32 = 36 + data.length :=
    Nat.mod_eq_of_lt (by omega)
  have hsrm : sr % 2 ^ 32 = sr := Nat.mod_eq_of_lt hsr
  have hba : bitsPerSampleOf fmt / 8 % 2 ^ 16 = bitsPerSampleOf fmt / 8 :=
    Nat.mod_eq_of_lt (by have := bitsPerSampleOf_lt fmt; omega)
  have hs := write_wav_shape sr fmt data
  rw [hLm, hRm, hsrm, hba] at hs
  refine ⟨write_wav_length sr fmt data, ?_, ?_, ?_, ?_, ?_, ?_, ?_⟩ <;>
    rw [hs] <;> simp [le16, le32, readLeU32] <;> omega


/-- Dropping the first four elements of an explicit four-cons list. -/
theorem drop4_cons {α : Type} (a b c d : α) (l : List α) :
    (a :: b :: c :: d :: l).drop 4 = l := rfl

/-- C4 counterexample: for a payload of exactly `2 ^ 32` bytes the 32-bit
RIFF size field wraps and decodes to 36, not to 36 plus the data length. -/
theorem claim4_counterexample :
    readLeU32 ((write_wav 48000 GGWAVE_SAMPLE_FORMAT_I16
        (List.replicate (2 ^ 32) 0)).drop 4) = 36 ∧
    36 + (List.replicate (2 ^ 32) (0 : Nat)).length ≠ 36 := by
  constructor
  · rw [write_wav_shape, drop4_cons, readLeU32_le32_append, List.length_replicate]
    norm_num
  · rw [List.length_replicate]
    omega


/-- C4 witness: the spec example, two bytes of mono 16-bit PCM at 48000 Hz:
46-byte file, "RIFF", size field 38, "WAVE", data length field 2. -/
theorem claim4_header_layout_witness :
    (write_wav 48000 GGWAVE_SAMPLE_FORMAT_I16 [7, 9]).length = 44 + 2 ∧
    (write_wav 48000 GGWAVE_SAMPLE_FORMAT_I16 [7, 9]).take 4 = [82, 73, 70, 70] ∧
    readLeU32 ((write_wav 48000 GGWAVE_SAMPLE_FORMAT_I16 [7, 9]).drop 4) = 38 ∧
    ((write_wav 48000 GGWAVE_SAMPLE_FORMAT_I16 [7, 9]).drop 8).take 4 =
      [87, 65, 86, 69] ∧
    readLeU32 ((write_wav 48000 GGWAVE_SAMPLE_FORMAT_I16 [7, 9]).drop 40) = 2 := by
  obtain ⟨h1, h2, h3, h4, h5, h6, h7, h8⟩ :=
    claim4_header_layout 48000 GGWAVE_SAMPLE_FORMAT_I16 [7, 9] (by decide) (by decide)
  exact ⟨h1, h2, h3, h4, h6⟩


/-- General write-then-read behaviour with the `u32` length cast kept: the
reader recovers only the first `data.length % 2 ^ 32` payload bytes, since
the writer stamps the wrapped value into the "data" chunk length field. -/
theorem read_write_wav_take (sr : Nat) (fmt : Int) (data : List Nat)
    (hsr : sr < 2 ^ 32) :
    read_wav (write_wav sr fmt data) =
      .ok ⟨sr, 1, bitsPerSampleOf fmt, 1, data.take (data.length % 2 ^ 32)⟩ := by
  have hbits : bitsPerSampleOf fmt < 2 ^ 16 := bitsPerSampleOf_lt fmt
  set bits := bitsPerSampleOf fmt with hbitsdef
  set br := (sr * (bits / 8)) % 2 ^ 32 with hbrdef
  set ba := (bits / 8) % 2 ^ 16 with hbadef
  set m := data.length % 2 ^ 32 with hmdef
  set p := data.take m with hpdef
  set rest := data.drop m with hrestdef
  have hm32 : m < 2 ^ 32 := by
    rw [hmdef]; exact Nat.mod_lt _ (by norm_num)
  have hplen : p.length = m := by
    rw [hpdef, List.length_take]
    have : m ≤ data.length := by rw [hmdef]; exact Nat.mod_le _ _
    omega
  set fmtP := le16 1 ++ (le16 1 ++ (le32 sr ++ (le32 br ++ (le16 ba ++ le16 bits))))
    with hfmtP
  have hfmtPlen : fmtP.length = 16 := by simp [hfmtP, le16, le32]
  have hsrm : sr % 2 ^ 32 = sr := Nat.mod_eq_of_lt hsr
  have hsplit : (data ++ [] : List Nat) = p ++ (rest ++ []) := by
    rw [← List.append_assoc, hpdef, hrestdef, List.take_append_drop]
  have hs := write_wav_shape sr fmt data
  rw [hsplit, hsrm, ← hbrdef, ← hbadef, ← hbitsdef, ← hmdef, ← hplen] at hs
  have h1 : ¬ (write_wav sr fmt data).length < 12 := by
    rw [write_wav_length]; omega
  have h2 : (write_wav sr fmt data).take 4 = [82, 73, 70, 70] := by
    rw [hs]; rfl
  have h3 : ((write_wav sr fmt data).drop 8).take 4 = [87, 65, 86, 69] := by
    rw [hs]; simp [le32]
  have h4 : (write_wav sr fmt data).drop 12 =
      102 :: 109 :: 116 :: 32 :: (le32 16 ++
        (fmtP ++ (100 :: 97 :: 116 :: 97 :: (le32 p.length ++ (p ++ (rest ++ [])))))) := by
    rw [hs]; simp [hfmtP, le32, le16, List.append_assoc]
  rw [read_wav, if_neg h1, if_neg (by simp [h2, h3]), write_wav_length, h4]
  rw [(by omega : 44 + data.length = 43 + data.length + 1)]
  rw [(by rw [hfmtPlen] : le32 16 = le32 fmtP.length)]
  rw [scanChunks_step _ _ _ _ _ fmtP _ _ (by rw [hfmtPlen]; norm_num)]
  rw [hfmtPlen, hfmtP, applyChunk_fmtPayload initScanSt sr br ba bits hsr hbits]
  simp only [initScanSt]
  norm_num
  rw [(by omega : 43 + data.length = 42 + data.length + 1)]
  rw [scanChunks_step _ _ _ _ _ p _ _ (by rw [hplen]; exact hm32)]
  rw [applyChunk_dataChunk]
  simp [finishScan]

/-- C1 amended: for every mono AudioBuffer of a supported encoding whose
raw bytes fit the 32-bit WAV length fields (length below `2 ^ 32`),
writing the reduced buffer with the WAV Writer and reading the bytes back
yields the same sample_rate, the same bits_per_sample, and byte-identical
raw_bytes (the format tag read back is always the PCM code 1). -/
theorem claim1_wav_roundtrip {α : Type} (fm : F32Model α) (w : WavData)
    (fmt : Int) (bytes : List Nat)
    (hch : w.channels = 1) (hsr : w.sample_rate < 2 ^ 32)
    (hL : w.data.length < 2 ^ 32)
    (hdm : downmix_to_mono fm w = .ok (fmt, bytes)) :
    read_wav (write_wav w.sample_rate fmt bytes) =
      .ok ⟨w.sample_rate, 1, w.bits_per_sample, 1, w.data⟩ := by
  rw [downmix_to_mono, if_pos hch] at hdm
  by_cases h8 : w.format_tag = 1 ∧ w.bits_per_sample = 8
  · rw [if_pos h8] at hdm
    simp only [Except.ok.injEq, Prod.mk.injEq] at hdm
    obtain ⟨hf, hb⟩ := hdm
    subst hf; subst hb
    rw [read_write_wav w.sample_rate _ _ hsr hL, h8.2]
    norm_num [bitsPerSampleOf, GGWAVE_SAMPLE_FORMAT_U8, GGWAVE_SAMPLE_FORMAT_I16,
      GGWAVE_SAMPLE_FORMAT_F32, GGWAVE_SAMPLE_FORMAT_I8, GGWAVE_SAMPLE_FORMAT_U16]
  · rw [if_neg h8] at hdm
    by_cases h16 : w.format_tag = 1 ∧ w.bits_per_sample = 16
    · rw [if_pos h16] at hdm
      simp only [Except.ok.injEq, Prod.mk.injEq] at hdm
      obtain ⟨hf, hb⟩ := hdm
      subst hf; subst hb
      rw [read_write_wav w.sample_rate _ _ hsr hL, h16.2]
      norm_num [bitsPerSampleOf, GGWAVE_SAMPLE_FORMAT_U8, GGWAVE_SAMPLE_FORMAT_I16,
        GGWAVE_SAMPLE_FORMAT_F32, GGWAVE_SAMPLE_FORMAT_I8, GGWAVE_SAMPLE_FORMAT_U16]
    · rw [if_neg h16] at hdm
      by_cases h32 : w.format_tag = 3 ∧ w.bits_per_sample = 32
      · rw [if_pos h32] at hdm
        simp only [Except.ok.injEq, Prod.mk.injEq] at hdm
        obtain ⟨hf, hb⟩ := hdm
        subst hf; subst hb
        rw [read_write_wav w.sample_rate _ _ hsr hL, h32.2]
        norm_num [bitsPerSampleOf, GGWAVE_SAMPLE_FORMAT_U8, GGWAVE_SAMPLE_FORMAT_I16,
          GGWAVE_SAMPLE_FORMAT_F32, GGWAVE_SAMPLE_FORMAT_I8, GGWAVE_SAMPLE_FORMAT_U16]
      · rw [if_neg h32] at hdm
        simp at hdm

/-- C1 counterexample: a mono 8-bit buffer with `2 ^ 32` raw bytes is
reduced to itself, but writing and re-reading it loses every byte, because
the "data" chunk length field wraps to 0; so the round-trip does not hold
for every mono buffer of a supported encoding. -/
theorem claim1_counterexample :
    downmix_to_mono trivF32 ⟨48000, 1, 8, 1, List.replicate (2 ^ 32) 0⟩ =
      .ok (GGWAVE_SAMPLE_FORMAT_U8, List.replicate (2 ^ 32) 0) ∧
    read_wav (write_wav 48000 GGWAVE_SAMPLE_FORMAT_U8 (List.replicate (2 ^ 32) 0)) =
      .ok ⟨48000, 1, 8, 1, []⟩ ∧
    ([] : List Nat) ≠ List.replicate (2 ^ 32) 0 := by
  refine ⟨rfl, ?_, ?_⟩
  · have h := read_write_wav_take 48000 GGWAVE_SAMPLE_FORMAT_U8
      (List.replicate (2 ^ 32) 0) (by norm_num)
    rw [List.length_replicate] at h
    norm_num [bitsPerSampleOf, GGWAVE_SAMPLE_FORMAT_U8, GGWAVE_SAMPLE_FORMAT_I16,
      GGWAVE_SAMPLE_FORMAT_F32, GGWAVE_SAMPLE_FORMAT_I8,
      GGWAVE_SAMPLE_FORMAT_U16] at h
    exact h
  · intro h
    have hlen := congrArg List.length h
    rw [List.length_replicate] at hlen
    norm_num at hlen

/-- C1 witness: a two-byte mono 16-bit buffer round-trips exactly. -/
theorem claim1_wav_roundtrip_witness :
    read_wav (write_wav 48000 GGWAVE_SAMPLE_FORMAT_I16 [7, 9]) =
      .ok ⟨48000, 1, 16, 1, [7, 9]⟩ :=
  claim1_wav_roundtrip trivF32 ⟨48000, 1, 16, 1, [7, 9]⟩
    GGWAVE_SAMPLE_FORMAT_I16 [7, 9] rfl (by norm_num) (by norm_num) (by decide)


/-- On-disk bytes of one RIFF chunk: four id bytes, the little-endian
32-bit length of the payload, the payload, and the alignment pad byte when
the payload length is odd.  Used to build input streams for the reader. -/
def chunkBytes (id payload : List Nat) : List Nat :=
  id ++ (le32 payload.length ++ (payload ++
    (if payload.length % 2 = 1 then [0] else [])))

/-- The 12-byte RIFF/WAVE file header with an arbitrary size field. -/
def riffHeader (sz : Nat) : List Nat :=
  82 :: 73 :: 70 :: 70 :: (le32 sz ++ [87, 65, 86, 69])

/-- Scanning one whole on-disk chunk (payload plus pad) advances the scan
to the rest of the stream. -/
theorem scanChunks_chunkBytes (fuel a b c d : Nat) (p REST : List Nat)
    (st : ScanSt) (hp : p.length < 2 ^ 32) :
    scanChunks (fuel + 1) (chunkBytes [a, b, c, d] p ++ REST) st =
      match applyChunk st [a, b, c, d] p.length p with
      | .error e => .error e
      | .ok st2 =>
        if st2.fmt_chunk_found && st2.data_chunk_found then finishScan st2
        else scanChunks fuel REST st2 := by
  by_cases hpar : p.length % 2 = 1
  · have hsh : chunkBytes [a, b, c, d] p ++ REST =
        a :: b :: c :: d :: (le32 p.length ++ (p ++ ([0] ++ REST))) := by
      simp [chunkBytes, hpar, List.append_assoc]
    rw [hsh, scanChunks_step fuel a b c d p ([0] ++ REST) st hp]
    cases h : applyChunk st [a, b, c, d] p.length p <;> simp [hpar]
  · have hsh : chunkBytes [a, b, c, d] p ++ REST =
        a :: b :: c :: d :: (le32 p.length ++ (p ++ REST)) := by
      simp [chunkBytes, hpar, List.append_assoc]
    rw [hsh, scanChunks_step fuel a b c d p REST st hp]
    cases h : applyChunk st [a, b, c, d] p.length p <;> simp [hpar]

/-- The fmt-chunk branch of `applyChunk` for a long-enough declared
length. -/
theorem applyChunk_fmtAny (st : ScanSt) (len : Nat) (chunk : List Nat)
    (h : ¬ len < 16) :
    applyChunk st [102, 109, 116, 32] len chunk =
      .ok { st with
        format_tag := readLeU16 chunk,
        channels := readLeU16 (chunk.drop 2),
        sample_rate := readLeU32 (chunk.drop 4),
        bits_per_sample := readLeU16 (chunk.drop 14),
        fmt_chunk_found := true } := by
  rw [applyChunk, if_pos rfl, if_neg h]

/-- A valid RIFF/WAVE header hands the rest of the stream to the chunk
scan. -/
theorem read_wav_riffHeader (sz : Nat) (rest : List Nat) :
    read_wav (riffHeader sz ++ rest) =
      scanChunks (riffHeader sz ++ rest).length rest initScanSt := by
  have hlen : (riffHeader sz ++ rest).length = 12 + rest.length := by
    simp [riffHeader, le32]; omega
  have h2 : (riffHeader sz ++ rest).take 4 = [82, 73, 70, 70] := by
    simp [riffHeader]
  have h3 : ((riffHeader sz ++ rest).drop 8).take 4 = [87, 65, 86, 69] := by
    simp [riffHeader, le32]
  have h4 : (riffHeader sz ++ rest).drop 12 = rest := by
    simp [riffHeader, le32]
  rw [read_wav, if_neg (by omega), if_neg (by simp [h2, h3]), h4]

/-- Reading a stream with a fmt chunk, a data chunk, and arbitrary later
bytes: the scan stops at the data chunk and the tail is irrelevant. -/
theorem read_wav_two_chunks (sz : Nat) (fmtP dataP tail : List Nat)
    (hf16 : 16 ≤ fmtP.length) (hf32 : fmtP.length < 2 ^ 32)
    (hd32 : dataP.length < 2 ^ 32) :
    read_wav (riffHeader sz ++ (chunkBytes [102, 109, 116, 32] fmtP ++
        (chunkBytes [100, 97, 116, 97] dataP ++ tail))) =
      .ok ⟨readLeU32 (fmtP.drop 4), readLeU16 (fmtP.drop 2),
        readLeU16 (fmtP.drop 14), readLeU16 fmtP, dataP⟩ := by
  rw [read_wav_riffHeader]
  set REST := chunkBytes [102, 109, 116, 32] fmtP ++
    (chunkBytes [100, 97, 116, 97] dataP ++ tail) with hREST
  rw [scanChunks_fuelInv _ (REST.length + 2) _ _
    (by simp [riffHeader, le32]; omega) (by omega)]
  rw [(by omega : REST.length + 2 = (REST.length + 1) + 1)]
  rw [hREST, scanChunks_chunkBytes (REST.length + 1) 102 109 116 32 fmtP _
    initScanSt hf32]
  rw [applyChunk_fmtAny initScanSt fmtP.length fmtP (by omega)]
  simp only [initScanSt]
  norm_num
  rw [scanChunks_chunkBytes REST.length 100 97 116 97 dataP tail _ hd32]
  rw [applyChunk_dataChunk]
  simp [finishScan]

/-- C7: the chunk scan stops as soon as both a "fmt " and a "data" chunk
have been seen — any bytes after the data chunk are irrelevant to the
result — and a stream that ends with either chunk missing fails with the
MissingRequiredChunk error; in particular a well-formed stream containing
only a "fmt " chunk (or only a "data" chunk) fails this way. -/
theorem claim7_scan_termination (sz : Nat) (fmtP dataP extra : List Nat)
    (hf16 : 16 ≤ fmtP.length) (hf32 : fmtP.length < 2 ^ 32)
    (hd32 : dataP.length < 2 ^ 32) :
    (read_wav (riffHeader sz ++ (chunkBytes [102, 109, 116, 32] fmtP ++
        (chunkBytes [100, 97, 116, 97] dataP ++ extra))) =
      read_wav (riffHeader sz ++ (chunkBytes [102, 109, 116, 32] fmtP ++
        (chunkBytes [100, 97, 116, 97] dataP ++ [])))) ∧
    read_wav (riffHeader sz ++ chunkBytes [102, 109, 116, 32] fmtP) =
      .error "Missing fmt or data chunk" ∧
    read_wav (riffHeader sz ++ chunkBytes [100, 97, 116, 97] dataP) =
      .error "Missing fmt or data chunk" := by
  refine ⟨?_, ?_, ?_⟩
  · rw [read_wav_two_chunks sz fmtP dataP extra hf16 hf32 hd32,
      read_wav_two_chunks sz fmtP dataP [] hf16 hf32 hd32]
  · rw [(by rw [List.append_nil] : chunkBytes [102, 109, 116, 32] fmtP =
      chunkBytes [102, 109, 116, 32] fmtP ++ [])]
    rw [read_wav_riffHeader]
    set REST := chunkBytes [102, 109, 116, 32] fmtP ++ [] with hREST
    rw [scanChunks_fuelInv _ (REST.length + 1) _ _
      (by simp [riffHeader, le32]; omega) (by omega)]
    rw [hREST, scanChunks_chunkBytes REST.length 102 109 116 32 fmtP []
      initScanSt hf32]
    rw [applyChunk_fmtAny initScanSt fmtP.length fmtP (by omega)]
    simp only [initScanSt]
    norm_num
    rw [scanChunks_nil]
    rfl
  · rw [(by rw [List.append_nil] : chunkBytes [100, 97, 116, 97] dataP =
      chunkBytes [100, 97, 116, 97] dataP ++ [])]
    rw [read_wav_riffHeader]
    set REST := chunkBytes [100, 97, 116, 97] dataP ++ [] with hREST
    rw [scanChunks_fuelInv _ (REST.length + 1) _ _
      (by simp [riffHeader, le32]; omega) (by omega)]
    rw [hREST, scanChunks_chunkBytes REST.length 100 97 116 97 dataP []
      initScanSt hd32]
    rw [applyChunk_dataChunk]
    simp only [initScanSt]
    norm_num
    rw [scanChunks_nil]
    rfl

/-- C7 witness: concrete 16-byte fmt payload and 2-byte data payload, with
two junk bytes after the data chunk. -/
theorem claim7_scan_termination_witness :
    read_wav (riffHeader 0 ++ (chunkBytes [102, 109, 116, 32]
        [1, 0, 1, 0, 68, 172, 0, 0, 68, 172, 0, 0, 2, 0, 16, 0] ++
        (chunkBytes [100, 97, 116, 97] [7, 9] ++ [42, 43]))) =
      read_wav (riffHeader 0 ++ (chunkBytes [102, 109, 116, 32]
        [1, 0, 1, 0, 68, 172, 0, 0, 68, 172, 0, 0, 2, 0, 16, 0] ++
        (chunkBytes [100, 97, 116, 97] [7, 9] ++ []))) ∧
    read_wav (riffHeader 0 ++ chunkBytes [102, 109, 116, 32]
        [1, 0, 1, 0, 68, 172, 0, 0, 68, 172, 0, 0, 2, 0, 16, 0]) =
      .error "Missing fmt or data chunk" :=
  ⟨(claim7_scan_termination 0 _ [7, 9] [42, 43] (by decide) (by decide)
      (by decide)).1,
   (claim7_scan_termination 0 _ [7, 9] [42, 43] (by decide) (by decide)
      (by decide)).2.1⟩

/-- The per-frame accumulator loop is summation over the channels. -/
theorem foldl_add_range (f : Nat → Int) (c : Nat) :
    (List.range c).foldl (fun a x => a + f x) 0 = ∑ x ∈ Finset.range c, f x := by
  induction c with
  | zero => simp
  | succ c ih =>
    rw [List.range_succ, List.foldl_append, ih, Finset.sum_range_succ]
    rfl

/-- Length of a flat map of two-byte blocks over frame indices. -/
theorem flatMap_pairs_length (g : Nat → List Nat) (hg : ∀ i, (g i).length = 2)
    (n : Nat) : ((List.range n).flatMap g).length = 2 * n := by
  induction n with
  | zero => simp
  | succ n ih =>
    rw [List.range_succ, List.flatMap_append]
    simp [ih, hg]
    omega

/-- Byte access into a flat map of two-byte blocks over frame indices. -/
theorem flatMap_pairs_getD (g : Nat → List Nat) (hg : ∀ i, (g i).length = 2) :
    ∀ n i, i < n →
    (((List.range n).flatMap g).getD (2 * i) 0 = (g i).getD 0 0) ∧
    (((List.range n).flatMap g).getD (2 * i + 1) 0 = (g i).getD 1 0) := by
  intro n
  induction n with
  | zero => omega
  | succ n ih =>
    intro i hi
    rw [List.range_succ, List.flatMap_append]
    have hlen : ((List.range n).flatMap g).length = 2 * n :=
      flatMap_pairs_length g hg n
    by_cases hin : i < n
    · constructor
      · rw [List.getD_append _ _ _ _ (by omega)]
        exact (ih i hin).1
      · rw [List.getD_append _ _ _ _ (by omega)]
        exact (ih i hin).2
    · have hieq : i = n := by omega
      subst hieq
      have hgl : ([i].flatMap g) = g i ++ [] := by simp
      have hs0 : 2 * i - ((List.range i).flatMap g).length = 0 := by
        rw [hlen]; omega
      have hs1 : 2 * i + 1 - ((List.range i).flatMap g).length = 1 := by
        rw [hlen]; omega
      constructor
      · rw [hgl, List.getD_append_right _ _ _ _ (by rw [hlen]), hs0]
        rw [List.getD_append _ _ _ _ (by rw [hg i]; omega)]
      · rw [hgl, List.getD_append_right _ _ _ _ (by rw [hlen]; omega), hs1]
        rw [List.getD_append _ _ _ _ (by rw [hg i]; omega)]

/-- Decoding the two little-endian bytes of an in-range `i16` value gives
the value back. -/
theorem i16FromLe_i16ToLe (v : Int) (h1 : -32768 ≤ v) (h2 : v ≤ 32767) :
    i16FromLe ((i16ToLe v).getD 0 0) ((i16ToLe v).getD 1 0) = v := by
  simp only [i16ToLe, i16FromLe, List.getD_cons_zero, List.getD_cons_succ]
  split <;> omega

/-- The clamp result stays inside the clamp interval. -/
theorem intClamp_mem (v lo hi : Int) (h : lo ≤ hi) :
    lo ≤ intClamp v lo hi ∧ intClamp v lo hi ≤ hi := by
  unfold intClamp
  split_ifs <;> omega

/-- A signed 16-bit sample decoded from two bytes is in range. -/
theorem i16FromLe_bounds (b0 b1 : Nat) (h0 : b0 < 256) (h1 : b1 < 256) :
    -32768 ≤ i16FromLe b0 b1 ∧ i16FromLe b0 b1 ≤ 32767 := by
  simp only [i16FromLe]
  split <;> omega

/-- Every byte the down-mix reads from the sample data is below 256 (the
data bytes are, and an out-of-range default is 0). -/
theorem getD_byte_lt (l : List Nat) (hl : ∀ b ∈ l, b < 256) (idx : Nat) :
    l.getD idx 0 < 256 := by
  by_cases h : idx < l.length
  · exact hl _ (by rw [List.getD_eq_getElem l 0 h]; exact List.getElem_mem h)
  · rw [List.getD_eq_getElem?_getD,
      List.getElem?_eq_none (by omega : l.length ≤ idx)]
    norm_num

/-- C2: on a multi-channel 16-bit signed PCM buffer, the down-mix emits one
sample per frame, each equal to the channel sum — which stays inside the
signed 32-bit range — divided by the channel count with truncating division
and clamped to [-32768, 32767]. -/
theorem claim2_downmix16 {α : Type} (fm : F32Model α) (w : WavData)
    (hch2 : 2 ≤ w.channels) (hch16 : w.channels < 2 ^ 16)
    (htag : w.format_tag = 1) (hbits : w.bits_per_sample = 16)
    (hbytes : ∀ b ∈ w.data, b < 256) :
    ∃ out, downmix_to_mono fm w = .ok (GGWAVE_SAMPLE_FORMAT_I16, out) ∧
      out.length = 2 * (w.data.length / (2 * w.channels)) ∧
      ∀ i, i < w.data.length / (2 * w.channels) →
        (-(2 ^ 31) ≤ (∑ ch ∈ Finset.range w.channels,
            i16FromLe (w.data.getD ((i * w.channels + ch) * 2) 0)
              (w.data.getD ((i * w.channels + ch) * 2 + 1) 0)) ∧
          (∑ ch ∈ Finset.range w.channels,
            i16FromLe (w.data.getD ((i * w.channels + ch) * 2) 0)
              (w.data.getD ((i * w.channels + ch) * 2 + 1) 0)) < 2 ^ 31) ∧
        i16FromLe (out.getD (2 * i) 0) (out.getD (2 * i + 1) 0) =
          intClamp (Int.tdiv (∑ ch ∈ Finset.range w.channels,
              i16FromLe (w.data.getD ((i * w.channels + ch) * 2) 0)
                (w.data.getD ((i * w.channels + ch) * 2 + 1) 0))
            (w.channels : Int)) (-32768) 32767 := by
  have hch1 : ¬ w.channels = 1 := by omega
  set c := w.channels with hc
  set fc := w.data.length / (2 * c) with hfc
  set g := fun i => i16ToLe (intClamp (Int.tdiv
      ((List.range c).foldl (fun a ch => a +
        i16FromLe (w.data.getD ((i * c + ch) * 2) 0)
          (w.data.getD ((i * c + ch) * 2 + 1) 0)) 0) (c : Int))
      (-32768) 32767) with hgdef
  have hg2 : ∀ i, (g i).length = 2 := by
    intro i; simp [hgdef, i16ToLe]
  refine ⟨(List.range fc).flatMap g, ?_, ?_, ?_⟩
  · rw [downmix_to_mono, if_neg hch1, if_pos ⟨htag, hbits⟩]
  · exact flatMap_pairs_length g hg2 fc
  · intro i hi
    have hsum : (List.range c).foldl (fun a ch => a +
        i16FromLe (w.data.getD ((i * c + ch) * 2) 0)
          (w.data.getD ((i * c + ch) * 2 + 1) 0)) 0 =
        ∑ ch ∈ Finset.range c,
          i16FromLe (w.data.getD ((i * c + ch) * 2) 0)
            (w.data.getD ((i * c + ch) * 2 + 1) 0) :=
      foldl_add_range (fun ch =>
        i16FromLe (w.data.getD ((i * c + ch) * 2) 0)
          (w.data.getD ((i * c + ch) * 2 + 1) 0)) c
    have hterm_ub : ∀ ch ∈ Finset.range c,
        i16FromLe (w.data.getD ((i * c + ch) * 2) 0)
          (w.data.getD ((i * c + ch) * 2 + 1) 0) ≤ 32767 := by
      intro ch _
      exact (i16FromLe_bounds _ _ (getD_byte_lt _ hbytes _)
        (getD_byte_lt _ hbytes _)).2
    have hterm_lb : ∀ ch ∈ Finset.range c,
        -32768 ≤ i16FromLe (w.data.getD ((i * c + ch) * 2) 0)
          (w.data.getD ((i * c + ch) * 2 + 1) 0) := by
      intro ch _
      exact (i16FromLe_bounds _ _ (getD_byte_lt _ hbytes _)
        (getD_byte_lt _ hbytes _)).1
    have hub : (∑ ch ∈ Finset.range c,
        i16FromLe (w.data.getD ((i * c + ch) * 2) 0)
          (w.data.getD ((i * c + ch) * 2 + 1) 0)) ≤ (c : Int) * 32767 := by
      have h := Finset.sum_le_card_nsmul (Finset.range c) _ 32767 hterm_ub
      rw [Finset.card_range, nsmul_eq_mul] at h
      exact h
    have hlb : (c : Int) * (-32768) ≤ ∑ ch ∈ Finset.range c,
        i16FromLe (w.data.getD ((i * c + ch) * 2) 0)
          (w.data.getD ((i * c + ch) * 2 + 1) 0) := by
      have h := Finset.card_nsmul_le_sum (Finset.range c) _ (-32768) hterm_lb
      rw [Finset.card_range, nsmul_eq_mul] at h
      exact h
    have hcle : (c : Int) ≤ 65535 := by
      have hcle0 : c ≤ 65535 := by omega
      exact_mod_cast hcle0
    have hub2 : (c : Int) * 32767 ≤ 65535 * 32767 :=
      mul_le_mul_of_nonneg_right hcle (by norm_num)
    have hlb2 : (65535 : Int) * (-32768) ≤ (c : Int) * (-32768) :=
      mul_le_mul_of_nonpos_right hcle (by norm_num)
    constructor
    · constructor
      · linarith [hlb, hlb2]
      · linarith [hub, hub2]
    · obtain ⟨hA, hB⟩ := flatMap_pairs_getD g hg2 fc i hi
      rw [hA, hB]
      simp only [hgdef]
      have hcl := intClamp_mem (Int.tdiv ((List.range c).foldl (fun a ch => a +
        i16FromLe (w.data.getD ((i * c + ch) * 2) 0)
          (w.data.getD ((i * c + ch) * 2 + 1) 0)) 0) (c : Int))
        (-32768) 32767 (by norm_num)
      rw [i16FromLe_i16ToLe _ hcl.1 hcl.2, hsum]

/-- C2 witness: the spec example — a stereo frame (100, 200) reduces to the
mono sample 150 — together with the per-sample formula at that input. -/
theorem claim2_downmix16_witness :
    downmix_to_mono trivF32 ⟨44100, 2, 16, 1, [100, 0, 200, 0]⟩ =
      .ok (GGWAVE_SAMPLE_FORMAT_I16, [150, 0]) ∧
    (∃ out, downmix_to_mono trivF32 ⟨44100, 2, 16, 1, [100, 0, 200, 0]⟩ =
        .ok (GGWAVE_SAMPLE_FORMAT_I16, out) ∧
      out.length = 2 * 1 ∧
      ∀ i, i < 1 →
        (-(2 ^ 31) ≤ (∑ ch ∈ Finset.range 2,
            i16FromLe (([100, 0, 200, 0] : List Nat).getD ((i * 2 + ch) * 2) 0)
              (([100, 0, 200, 0] : List Nat).getD ((i * 2 + ch) * 2 + 1) 0)) ∧
          (∑ ch ∈ Finset.range 2,
            i16FromLe (([100, 0, 200, 0] : List Nat).getD ((i * 2 + ch) * 2) 0)
              (([100, 0, 200, 0] : List Nat).getD ((i * 2 + ch) * 2 + 1) 0)) < 2 ^ 31) ∧
        i16FromLe (out.getD (2 * i) 0) (out.getD (2 * i + 1) 0) =
          intClamp (Int.tdiv (∑ ch ∈ Finset.range 2,
              i16FromLe (([100, 0, 200, 0] : List Nat).getD ((i * 2 + ch) * 2) 0)
                (([100, 0, 200, 0] : List Nat).getD ((i * 2 + ch) * 2 + 1) 0))
            ((2 : Nat) : Int)) (-32768) 32767) :=
  ⟨by decide,
   claim2_downmix16 trivF32 ⟨44100, 2, 16, 1, [100, 0, 200, 0]⟩
     (by decide) (by decide) rfl rfl (by decide)⟩

/-- Length of a flat map of fixed-size blocks over frame indices. -/
theorem flatMap_blocks_length (b : Nat) (g : Nat → List Nat)
    (hg : ∀ i, (g i).length = b) (n : Nat) :
    ((List.range n).flatMap g).length = n * b := by
  induction n with
  | zero => simp
  | succ n ih =>
    rw [List.range_succ, List.flatMap_append, List.length_append, ih]
    simp [hg]
    ring

/-- Reading inside the taken prefix sees the original bytes. -/
theorem getD_take_eq (l : List Nat) (n i d : Nat) (h : i < n) :
    (l.take n).getD i d = l.getD i d := by
  rw [List.getD_eq_getElem?_getD, List.getD_eq_getElem?_getD,
    List.getElem?_take]
  simp [h]

/-- Fold congruence for pointwise-equal step functions. -/
theorem foldl_fun_congr {A B : Type} (l : List B) (f g : A → B → A) :
    (∀ x ∈ l, ∀ acc, f acc x = g acc x) →
    ∀ a : A, l.foldl f a = l.foldl g a := by
  induction l with
  | nil => intro _ a; rfl
  | cons x xs ih =>
    intro h a
    rw [List.foldl_cons, List.foldl_cons, h x (by simp)]
    exact ih (fun y hy acc => h y (by simp [hy]) acc) _

/-- Flat-map congruence for pointwise-equal block functions. -/
theorem flatMap_fun_congr {B : Type} (l : List B) (f g : B → List Nat)
    (h : ∀ x ∈ l, f x = g x) : l.flatMap f = l.flatMap g := by
  induction l with
  | nil => rfl
  | cons x xs ih =>
    rw [List.flatMap_cons, List.flatMap_cons, h x (by simp)]
    rw [ih (fun y hy => h y (by simp [hy]))]

/-- Index bound for the down-mix access pattern: all byte indices of
complete frames lie inside the truncated frame region. -/
theorem frame_index_lt (L c W i ch k : Nat) (hch : ch < c) (hk : k < W)
    (hi : i < L / (W * c)) :
    (i * c + ch) * W + k < L / (W * c) * (W * c) := by
  calc (i * c + ch) * W + k
      < (i * c + ch) * W + W := Nat.add_lt_add_left hk _
    _ = (i * c + ch + 1) * W := (Nat.succ_mul _ _).symm
    _ ≤ L / (W * c) * c * W := by
        apply mul_le_mul_right'
        calc i * c + ch + 1 = i * c + (ch + 1) := Nat.add_assoc _ _ _
          _ ≤ i * c + c := Nat.add_le_add_left (by omega) _
          _ = (i + 1) * c := (Nat.succ_mul _ _).symm
          _ ≤ L / (W * c) * c := mul_le_mul_right' (by omega) c
    _ = L / (W * c) * (W * c) := by ring

/-- C8: on a multi-channel buffer of a supported encoding the down-mix
processes exactly `length / (width * channels)` frames: every byte index it
reads is inside the frame region (hence inside the buffer), the output has
one `width`-byte sample per frame, and trailing bytes that do not form a
complete frame contribute nothing — the result equals the result on the
buffer truncated to whole frames. -/
theorem claim8_no_oob {α : Type} (fm : F32Model α) (w : WavData)
    (hch : 2 ≤ w.channels)
    (hsupp : (w.format_tag = 1 ∧ w.bits_per_sample = 16) ∨
      (w.format_tag = 1 ∧ w.bits_per_sample = 8) ∨
      (w.format_tag = 3 ∧ w.bits_per_sample = 32)) :
    (∀ i ch k, i < w.data.length / (w.bits_per_sample / 8 * w.channels) →
      ch < w.channels → k < w.bits_per_sample / 8 →
      (i * w.channels + ch) * (w.bits_per_sample / 8) + k < w.data.length) ∧
    (∃ fmt out, downmix_to_mono fm w = .ok (fmt, out) ∧
      out.length = w.data.length / (w.bits_per_sample / 8 * w.channels) *
        (w.bits_per_sample / 8)) ∧
    downmix_to_mono fm w = downmix_to_mono fm
      { w with data := w.data.take (w.data.length /
          (w.bits_per_sample / 8 * w.channels) *
          (w.bits_per_sample / 8 * w.channels)) } := by
  have hch1 : ¬ w.channels = 1 := by omega
  refine ⟨?_, ?_, ?_⟩
  · intro i ch k hi hc hk
    exact lt_of_lt_of_le
      (frame_index_lt w.data.length w.channels (w.bits_per_sample / 8) i ch k hc hk hi)
      (Nat.div_mul_le_self _ _)
  · rcases hsupp with ⟨htag, hbits⟩ | ⟨htag, hbits⟩ | ⟨htag, hbits⟩
    · have hp : w.format_tag = 1 ∧ w.bits_per_sample = 16 := ⟨htag, hbits⟩
      rw [downmix_to_mono, if_neg hch1, if_pos hp]
      refine ⟨_, _, rfl, ?_⟩
      rw [flatMap_blocks_length 2 _ (fun i => by simp [i16ToLe]) _]
      simp [hbits]
    · have hn16 : ¬ (w.format_tag = 1 ∧ w.bits_per_sample = 16) := by
        simp [hbits]
      have hp : w.format_tag = 1 ∧ w.bits_per_sample = 8 := ⟨htag, hbits⟩
      rw [downmix_to_mono, if_neg hch1, if_neg hn16, if_pos hp]
      refine ⟨_, _, rfl, ?_⟩
      rw [List.length_map, List.length_range]
      simp [hbits]
    · have hn16 : ¬ (w.format_tag = 1 ∧ w.bits_per_sample = 16) := by
        simp [htag]
      have hn8 : ¬ (w.format_tag = 1 ∧ w.bits_per_sample = 8) := by
        simp [htag]
      have hp : w.format_tag = 3 ∧ w.bits_per_sample = 32 := ⟨htag, hbits⟩
      rw [downmix_to_mono, if_neg hch1, if_neg hn16, if_neg hn8, if_pos hp]
      refine ⟨_, _, rfl, ?_⟩
      rw [flatMap_blocks_length 4 _ (fun i => fm.toLe_length _) _]
      simp [hbits]
  · rcases hsupp with ⟨htag, hbits⟩ | ⟨htag, hbits⟩ | ⟨htag, hbits⟩
    · -- 16-bit branch
      have hp : w.format_tag = 1 ∧ w.bits_per_sample = 16 := ⟨htag, hbits⟩
      have hw8 : w.bits_per_sample / 8 = 2 := by rw [hbits]
      rw [hw8]
      set B := w.data.length / (2 * w.channels) * (2 * w.channels) with hB
      have hBle : B ≤ w.data.length := Nat.div_mul_le_self _ _
      have htl : (w.data.take B).length = B := by
        rw [List.length_take]; omega
      have hfc : (w.data.take B).length / (2 * w.channels) =
          w.data.length / (2 * w.channels) := by
        rw [htl, hB, Nat.mul_div_cancel _ (by omega : 0 < 2 * w.channels)]
      rw [downmix_to_mono, downmix_to_mono]
      dsimp only
      rw [if_neg hch1, if_neg hch1, if_pos hp, if_pos hp, hfc]
      refine congrArg (fun out => (Except.ok (GGWAVE_SAMPLE_FORMAT_I16, out) :
        Except String (Int × List Nat))) ?_
      apply flatMap_fun_congr
      intro i hiI
      have hi : i < w.data.length / (2 * w.channels) := List.mem_range.mp hiI
      have hfold := foldl_fun_congr (List.range w.channels)
        (fun (a : Int) ch => a +
          i16FromLe ((w.data.take B).getD ((i * w.channels + ch) * 2) 0)
            ((w.data.take B).getD ((i * w.channels + ch) * 2 + 1) 0))
        (fun (a : Int) ch => a +
          i16FromLe (w.data.getD ((i * w.channels + ch) * 2) 0)
            (w.data.getD ((i * w.channels + ch) * 2 + 1) 0))
        (by
          intro ch hchI acc
          dsimp only
          have hcc : ch < w.channels := List.mem_range.mp hchI
          have h0 : (i * w.channels + ch) * 2 < B := by
            rw [hB]
            exact frame_index_lt w.data.length w.channels 2 i ch 0 hcc (by omega) hi
          have h1 : (i * w.channels + ch) * 2 + 1 < B := by
            rw [hB]
            exact frame_index_lt w.data.length w.channels 2 i ch 1 hcc (by omega) hi
          rw [getD_take_eq _ _ _ _ h0, getD_take_eq _ _ _ _ h1]) 0
      rw [hfold]
    · -- 8-bit branch
      have hn16 : ¬ (w.format_tag = 1 ∧ w.bits_per_sample = 16) := by
        simp [hbits]
      have hp : w.format_tag = 1 ∧ w.bits_per_sample = 8 := ⟨htag, hbits⟩
      have hw8 : w.bits_per_sample / 8 = 1 := by rw [hbits]
      rw [hw8]
      set B := w.data.length / (1 * w.channels) * (1 * w.channels) with hB
      have hBle : B ≤ w.data.length := Nat.div_mul_le_self _ _
      have htl : (w.data.take B).length = B := by
        rw [List.length_take]; omega
      have hfc : (w.data.take B).length / (1 * w.channels) =
          w.data.length / (1 * w.channels) := by
        rw [htl, hB, Nat.mul_div_cancel _ (by omega : 0 < 1 * w.channels)]
      rw [downmix_to_mono, downmix_to_mono]
      dsimp only
      rw [if_neg hch1, if_neg hch1, if_neg hn16, if_neg hn16, if_pos hp,
        if_pos hp, hfc]
      refine congrArg (fun out => (Except.ok (GGWAVE_SAMPLE_FORMAT_U8, out) :
        Except String (Int × List Nat))) ?_
      apply List.map_congr_left
      intro i hiI
      have hi : i < w.data.length / (1 * w.channels) := List.mem_range.mp hiI
      have hfold := foldl_fun_congr (List.range w.channels)
        (fun (a : Int) ch => a +
          ((w.data.take B).getD (i * w.channels + ch) 0 : Int))
        (fun (a : Int) ch => a + (w.data.getD (i * w.channels + ch) 0 : Int))
        (by
          intro ch hchI acc
          dsimp only
          have hcc : ch < w.channels := List.mem_range.mp hchI
          have h0 : i * w.channels + ch < B := by
            have h := frame_index_lt w.data.length w.channels 1 i ch 0 hcc
              (by omega) hi
            rw [hB]
            calc i * w.channels + ch = (i * w.channels + ch) * 1 + 0 := by ring
              _ < w.data.length / (1 * w.channels) * (1 * w.channels) := h
          rw [getD_take_eq _ _ _ _ h0]) 0
      rw [hfold]
    · -- float branch
      have hn16 : ¬ (w.format_tag = 1 ∧ w.bits_per_sample = 16) := by
        simp [htag]
      have hn8 : ¬ (w.format_tag = 1 ∧ w.bits_per_sample = 8) := by
        simp [htag]
      have hp : w.format_tag = 3 ∧ w.bits_per_sample = 32 := ⟨htag, hbits⟩
      have hw8 : w.bits_per_sample / 8 = 4 := by rw [hbits]
      rw [hw8]
      set B := w.data.length / (4 * w.channels) * (4 * w.channels) with hB
      have hBle : B ≤ w.data.length := Nat.div_mul_le_self _ _
      have htl : (w.data.take B).length = B := by
        rw [List.length_take]; omega
      have hfc : (w.data.take B).length / (4 * w.channels) =
          w.data.length / (4 * w.channels) := by
        rw [htl, hB, Nat.mul_div_cancel _ (by omega : 0 < 4 * w.channels)]
      rw [downmix_to_mono, downmix_to_mono]
      dsimp only
      rw [if_neg hch1, if_neg hch1, if_neg hn16, if_neg hn16, if_neg hn8,
        if_neg hn8, if_pos hp, if_pos hp, hfc]
      refine congrArg (fun out => (Except.ok (GGWAVE_SAMPLE_FORMAT_F32, out) :
        Except String (Int × List Nat))) ?_
      apply flatMap_fun_congr
      intro i hiI
      have hi : i < w.data.length / (4 * w.channels) := List.mem_range.mp hiI
      have hfold := foldl_fun_congr (List.range w.channels)
        (fun (a : α) ch => fm.add a
          (fm.fromLe ((w.data.take B).getD ((i * w.channels + ch) * 4) 0)
            ((w.data.take B).getD ((i * w.channels + ch) * 4 + 1) 0)
            ((w.data.take B).getD ((i * w.channels + ch) * 4 + 2) 0)
            ((w.data.take B).getD ((i * w.channels + ch) * 4 + 3) 0)))
        (fun (a : α) ch => fm.add a
          (fm.fromLe (w.data.getD ((i * w.channels + ch) * 4) 0)
            (w.data.getD ((i * w.channels + ch) * 4 + 1) 0)
            (w.data.getD ((i * w.channels + ch) * 4 + 2) 0)
            (w.data.getD ((i * w.channels + ch) * 4 + 3) 0)))
        (by
          intro ch hchI acc
          dsimp only
          have hcc : ch < w.channels := List.mem_range.mp hchI
          have hk : ∀ k, k < 4 → (i * w.channels + ch) * 4 + k < B := by
            intro k hk4
            rw [hB]
            exact frame_index_lt w.data.length w.channels 4 i ch k hcc hk4 hi
          have hidx : (i * w.channels + ch) * 4 < B := by
            have h := hk 0 (by omega); omega
          rw [getD_take_eq _ _ _ _ hidx, getD_take_eq _ _ _ _ (hk 1 (by omega)),
            getD_take_eq _ _ _ _ (hk 2 (by omega)),
            getD_take_eq _ _ _ _ (hk 3 (by omega))]) fm.zero
      rw [hfold]

/-- C8 witness: a stereo 16-bit buffer with one complete frame and two
trailing bytes. -/
theorem claim8_no_oob_witness :
    (∀ i ch k, i < ([1, 2, 3, 4, 5, 6] : List Nat).length / (16 / 8 * 2) →
      ch < 2 → k < 16 / 8 →
      (i * 2 + ch) * (16 / 8) + k < ([1, 2, 3, 4, 5, 6] : List Nat).length) ∧
    (∃ fmt out, downmix_to_mono trivF32 ⟨44100, 2, 16, 1, [1, 2, 3, 4, 5, 6]⟩ =
        .ok (fmt, out) ∧
      out.length = ([1, 2, 3, 4, 5, 6] : List Nat).length / (16 / 8 * 2) * (16 / 8)) ∧
    downmix_to_mono trivF32 ⟨44100, 2, 16, 1, [1, 2, 3, 4, 5, 6]⟩ =
      downmix_to_mono trivF32 ⟨44100, 2, 16, 1,
        ([1, 2, 3, 4, 5, 6] : List Nat).take
          (([1, 2, 3, 4, 5, 6] : List Nat).length / (16 / 8 * 2) * (16 / 8 * 2))⟩ :=
  claim8_no_oob trivF32 ⟨44100, 2, 16, 1, [1, 2, 3, 4, 5, 6]⟩ (by decide)
    (Or.inl ⟨rfl, rfl⟩)
end Gibberlink
